import Mathlib

/-!
Shallow embedding of the MLB pitcher-data collection repository
(`src/data_collection/...`), covering the data synchronizer
(`storage/sync.py`), the rate limiter (`api/rate_limiter.py`), the token
manager (`api/authentication.py`), the configuration environment-variable
merge (`config.py`), and the SQLite-backed local storage layer
(`storage/local_storage.py`, `storage/schema.py`).

Python dicts are modelled as association lists; Python dict assignment
(`d[k] = v`, which replaces in place when the key exists and otherwise
appends, preserving insertion order) is `setEntry`; `k in d` / `d[k]` /
`d.get(k)` go through `alookup`.
-/

namespace MLBPitcher

/-- Lookup: `alookup l k` is Python `l[k]`/`l.get(k)` on a dict modelled as an
association list: the value at the first binding of `k`, if any. -/
def alookup {α : Type} : List (String × α) → String → Option α
  | [], _ => none
  | e :: es, k => if e.1 = k then some e.2 else alookup es k

/-- Python dict assignment `d[k] = v`: replace the first binding of `k` in
place if one exists, otherwise append a new binding at the end. -/
def setEntry {α : Type} : List (String × α) → String → α → List (String × α)
  | [], k, v => [(k, v)]
  | e :: es, k, v => if e.1 = k then (k, v) :: es else e :: setEntry es k v

theorem alookup_setEntry_self {α : Type} (l : List (String × α)) (k : String) (v : α) :
    alookup (setEntry l k v) k = some v := by
  induction l with
  | nil => simp [setEntry, alookup]
  | cons e es ih =>
    by_cases h : e.1 = k <;> simp [setEntry, alookup, h, ih]

theorem alookup_setEntry_ne {α : Type} (l : List (String × α)) (k k' : String) (v : α)
    (h : k ≠ k') : alookup (setEntry l k v) k' = alookup l k' := by
  induction l with
  | nil => simp [setEntry, alookup, h]
  | cons e es ih =>
    by_cases he : e.1 = k
    · simp [setEntry, alookup, he, h]
    · by_cases he' : e.1 = k' <;> simp [setEntry, alookup, he, he', ih, Ne.symm h]

/-!
## Data synchronizer: sync log (`storage/sync.py`, `DataSynchronizer`)

The sync log is the JSON file `{"last_sync": {...}, "sync_history": [...]}`.
A history entry is `{type, timestamp, status, [message]}`.
-/

/-- One entry of `sync_history`: `{"type": ..., "timestamp": ..., "status": ...}`
with an optional `"message"` field (present on error entries). -/
structure SyncEntry where
  type : String
  timestamp : String
  status : String
  message : Option String
deriving DecidableEq, Repr

/-- The sync log: the `last_sync` map from data category to timestamp, and the
`sync_history` list. -/
structure SyncLog where
  last_sync : List (String × String)
  sync_history : List SyncEntry
deriving DecidableEq, Repr

/-- The default log created by `_initialize_sync_log`:
`{"last_sync": {}, "sync_history": []}`. -/
def default_log : SyncLog := ⟨[], []⟩

/-- Source `DataSynchronizer.update_last_sync` (sync.py lines 108-140): set
`last_sync[data_type]`, append a success entry to `sync_history`, and if the
history now has more than 100 entries keep only the last 100
(`sync_history[-100:]`). Timestamps are passed in (the code defaults
`timestamp` to `datetime.now()` and stores `timestamp.isoformat()`). -/
def update_last_sync (log : SyncLog) (data_type timestamp : String) : SyncLog :=
  let hist := log.sync_history ++ [⟨data_type, timestamp, "success", none⟩]
  { last_sync := setEntry log.last_sync data_type timestamp
    sync_history := if 100 < hist.length then hist.drop (hist.length - 100) else hist }

/-- Source `DataSynchronizer.record_sync_error` (sync.py lines 164-188): append an
error entry to `sync_history` without touching `last_sync` — and, in the
source, without trimming the history. -/
def record_sync_error (log : SyncLog) (data_type error_message timestamp : String) : SyncLog :=
  { log with sync_history := log.sync_history ++ [⟨data_type, timestamp, "error", some error_message⟩] }

/-- A synchronizer operation that touches the sync history. -/
inductive SyncOp
  | update (data_type timestamp : String)
  | recordError (data_type error_message timestamp : String)

/-- Apply one synchronizer operation to the persisted log. -/
def applySyncOp (log : SyncLog) : SyncOp → SyncLog
  | .update t ts => update_last_sync log t ts
  | .recordError t m ts => record_sync_error log t m ts

/-- Run a sequence of synchronizer operations starting from a log state. -/
def runSyncOps (log : SyncLog) (ops : List SyncOp) : SyncLog := ops.foldl applySyncOp log

theorem runSyncOps_replicate_recordError (log : SyncLog) (n : Nat) (t m ts : String) :
    (runSyncOps log (List.replicate n (SyncOp.recordError t m ts))).sync_history.length
      = log.sync_history.length + n := by
  induction n generalizing log with
  | zero => simp [runSyncOps]
  | succ k ih =>
    rw [List.replicate_succ]
    show (runSyncOps (applySyncOp log (SyncOp.recordError t m ts))
        (List.replicate k (SyncOp.recordError t m ts))).sync_history.length = _
    rw [ih]
    simp [applySyncOp, record_sync_error]
    omega

theorem update_last_sync_bound (l : SyncLog) (t ts : String) :
    (update_last_sync l t ts).sync_history.length ≤ 100 ∧
    (update_last_sync l t ts).sync_history
      <:+ l.sync_history ++ [⟨t, ts, "success", none⟩] := by
  set L := l.sync_history ++ [(⟨t, ts, "success", none⟩ : SyncEntry)] with hL
  have hh : (update_last_sync l t ts).sync_history =
      if 100 < L.length then L.drop (L.length - 100) else L := rfl
  rw [hh]
  by_cases h : 100 < L.length
  · rw [if_pos h]
    exact ⟨by simp only [List.length_drop]; omega, List.drop_suffix _ _⟩
  · rw [if_neg h]
    exact ⟨by omega, List.suffix_refl _⟩

/-- C2 counterexample: starting from the fresh sync log, a sequence of 101
`record_sync_error` operations leaves 101 entries in the persisted
`sync_history`, exceeding the claimed bound of 100 — `record_sync_error`
appends without trimming. -/
theorem c2_counterexample :
    ¬ ((runSyncOps default_log
          (List.replicate 101 (SyncOp.recordError "players" "boom" "t"))).sync_history.length
        ≤ 100) := by
  rw [runSyncOps_replicate_recordError]
  simp [default_log]

/-- C2 (amended): `update_last_sync` trims the history to its most recent 100
entries, so after any operation sequence that ends in an `update_last_sync`
the persisted `sync_history` has at most 100 entries, and is a suffix (the
most recent part) of the prior history extended by the new success entry;
`record_sync_error` alone appends without trimming and can exceed the bound. -/
theorem c2_sync_history_bounded_after_update (log : SyncLog) (ops : List SyncOp)
    (t ts : String) :
    (runSyncOps log (ops ++ [SyncOp.update t ts])).sync_history.length ≤ 100 ∧
    (runSyncOps log (ops ++ [SyncOp.update t ts])).sync_history
      <:+ (runSyncOps log ops).sync_history ++ [⟨t, ts, "success", none⟩] := by
  rw [runSyncOps, List.foldl_append, List.foldl_cons, List.foldl_nil]
  exact update_last_sync_bound (runSyncOps log ops) t ts

/-!
## Rate limiter (`api/rate_limiter.py`, `RateLimiter.execute`)

`execute` runs `request_func` in a loop `while retries <= max_retries`,
returning the result on success; on an exception it increments `retries` and,
once `retries > max_retries`, raises
`RuntimeError(f"Request failed after {max_retries} retries")` chained from the
last underlying error.  The operation is modelled as `f : Nat → Except E A`
giving the outcome of its `i`-th invocation (0-based); sleeping
(`wait_if_needed`, backoff) does not affect the control flow and is not
modelled.  The result pairs the final outcome — `Except.error (m, e)` standing
for the `RuntimeError` whose message reports `m` retries, chained from `e` —
with the total number of invocations of the operation.
-/

/-- The retry loop of `RateLimiter.execute` (rate_limiter.py lines 59-102),
entered with `retries = attempt`; `attempt` is also the 0-based index of the
invocation about to be made. Returns the outcome together with the total
invocation count. -/
def executeGo {E A : Type} (f : Nat → Except E A) (max_retries attempt : Nat) :
    Except (Nat × E) A × Nat :=
  match f attempt with
  | .ok a => (.ok a, attempt + 1)
  | .error e =>
    if h : max_retries < attempt + 1 then (.error (max_retries, e), attempt + 1)
    else executeGo f max_retries (attempt + 1)
termination_by max_retries + 1 - attempt
decreasing_by omega

/-- Source `RateLimiter.execute`: run the retry loop from `retries = 0`. -/
def execute {E A : Type} (f : Nat → Except E A) (max_retries : Nat) :
    Except (Nat × E) A × Nat :=
  executeGo f max_retries 0

theorem executeGo_all_fail {E A : Type} (f : Nat → Except E A) (m : Nat) :
    ∀ fuel a, m + 1 - a = fuel → a ≤ m → (∀ i, (f i).isOk = false) →
      ∃ e, f m = Except.error e ∧ executeGo f m a = (Except.error (m, e), m + 1) := by
  intro fuel
  induction fuel with
  | zero => intro a h ha _; omega
  | succ n ih =>
    intro a h ha hf
    have hfa := hf a
    match hfma : f a with
    | .ok v => rw [hfma] at hfa; simp [Except.isOk, Except.toBool] at hfa
    | .error e =>
      rw [executeGo, hfma]
      by_cases hlt : m < a + 1
      · have ham : a = m := by omega
        subst ham
        exact ⟨e, hfma, by simp [hlt]⟩
      · have ⟨e', he', hgo⟩ := ih (a + 1) (by omega) (by omega) hf
        exact ⟨e', he', by simp [hlt, hgo]⟩

theorem executeGo_first_success {E A : Type} (f : Nat → Except E A) (m : Nat) (k : Nat)
    (v : A) (hk : k ≤ m) (hv : f k = Except.ok v) :
    ∀ fuel a, m + 1 - a = fuel → a ≤ k → (∀ i, a ≤ i → i < k → (f i).isOk = false) →
      executeGo f m a = (Except.ok v, k + 1) := by
  intro fuel
  induction fuel with
  | zero => intro a h ha _; omega
  | succ n ih =>
    intro a h ha hf
    by_cases hak : a = k
    · subst hak; rw [executeGo, hv]
    · have hfa := hf a (le_refl a) (by omega)
      match hfma : f a with
      | .ok w => rw [hfma] at hfa; simp [Except.isOk, Except.toBool] at hfa
      | .error e =>
        rw [executeGo, hfma]
        have hlt : ¬ m < a + 1 := by omega
        simp only [hlt, dite_false]
        exact ih (a + 1) (by omega) (by omega) (fun i hi hik => hf i (by omega) hik)

/-- C3: for a rate limiter with `max_retries = 3`, an operation that fails on
every invocation is invoked exactly 4 times (1 initial attempt + 3 retries)
and `execute` raises the exhausted-retries failure wrapping the last
underlying error; an operation that first succeeds at attempt `k ≤ 3` returns
that attempt's result immediately, after `k + 1` invocations. -/
theorem c3_execute_retry_budget {E A : Type} (f : Nat → Except E A) :
    ((∀ i, (f i).isOk = false) →
      (execute f 3).2 = 4 ∧ ∃ e, f 3 = Except.error e ∧
        (execute f 3).1 = Except.error (3, e))
    ∧ (∀ k v, k ≤ 3 → f k = Except.ok v → (∀ i, i < k → (f i).isOk = false) →
        execute f 3 = (Except.ok v, k + 1)) := by
  constructor
  · intro hf
    obtain ⟨e, he, hgo⟩ := executeGo_all_fail f 3 4 0 rfl (by omega) hf
    rw [execute, hgo]
    exact ⟨rfl, e, he, rfl⟩
  · intro k v hk hv hf
    exact executeGo_first_success f 3 k v hk hv 4 0 rfl (by omega)
      (fun i _ h2 => hf i h2)

/-- Witness for C3 at concrete operations: an always-failing operation is
invoked 4 times; an operation failing twice then succeeding returns the
success after 3 invocations. -/
theorem c3_witness :
    (execute (fun _ => (Except.error "boom" : Except String Nat)) 3).2 = 4
    ∧ execute (fun i => if i < 2 then (Except.error "boom" : Except String Nat)
        else Except.ok 7) 3 = (Except.ok 7, 3) := by
  constructor
  · exact ((c3_execute_retry_budget
      (fun _ => (Except.error "boom" : Except String Nat))).1 (fun i => rfl)).1
  · exact (c3_execute_retry_budget _).2 2 7 (by omega) rfl
      (fun i hi => by interval_cases i <;> rfl)

/-!
## Token manager (`api/authentication.py`, `TokenManager`)

`token_data` is the cached token payload (a JSON dict, modelled as a
string-to-string association list; `None` when absent), `token_expiry` the
cached expiry time. Times are modelled as integer minutes, matching the
10-minute margin `timedelta(minutes=10)`; `now` stands for `datetime.now()`.
-/

/-- The mutable state of `TokenManager`: `self.token_data` and
`self.token_expiry`. -/
structure TokenManager where
  token_data : Option (List (String × String))
  token_expiry : Option Int
deriving DecidableEq, Repr

/-- Source `TokenManager._is_token_valid` (authentication.py lines 151-164):
`if not self.token_data or not self.token_expiry: return False` (an empty
dict is falsy in Python, hence the `d.isEmpty` case), then
`datetime.now() < self.token_expiry - timedelta(minutes=10)`. -/
def is_token_valid (m : TokenManager) (now : Int) : Bool :=
  match m.token_data, m.token_expiry with
  | some d, some expiry => if d.isEmpty then false else decide (now < expiry - 10)
  | _, _ => false

/-- Source `TokenManager._can_refresh_token` (authentication.py lines 166-176):
`token_data` is present and has a `refresh_token` entry. -/
def can_refresh_token (m : TokenManager) : Bool :=
  match m.token_data with
  | some d => (alookup d "refresh_token").isSome
  | none => false

/-- Source `TokenManager._request_new_token` (authentication.py lines 178-192): an
unimplemented stub — logs a warning and returns `False`. -/
def request_new_token : TokenManager → Bool := fun _ => false

/-- Source `TokenManager._refresh_token` (authentication.py lines 227-241): an
unimplemented stub — logs a warning and returns `False`. -/
def refresh_token : TokenManager → Bool := fun _ => false

/-- Source `TokenManager.get_token` (authentication.py lines 109-135): return the
cached `access_token` when `_is_token_valid`; otherwise `_refresh_token` when
`_can_refresh_token` else `_request_new_token`, returning the token on
success and `None` on failure.  (The stubs never mutate `token_data`, so the
success branch reads the same state.) -/
def get_token (m : TokenManager) (now : Int) : Option String :=
  if is_token_valid m now then
    match m.token_data with
    | some d => alookup d "access_token"
    | none => none
  else
    let success := if can_refresh_token m then refresh_token m else request_new_token m
    if success then
      match m.token_data with
      | some d => alookup d "access_token"
      | none => none
    else none

/-- C4: `get_token` returns the cached access token exactly when the cached
token is valid; validity holds exactly when token data is (truthily) present
and the cached expiry is more than 10 minutes after the current time; a token
expiring 9 minutes from now is invalid (and `get_token` yields nothing, the
request/refresh stubs failing), one expiring 11 minutes from now is valid and
returned. -/
theorem c4_get_token_margin (m : TokenManager) (now : Int) :
    (get_token m now =
      if is_token_valid m now then
        (match m.token_data with
          | some d => alookup d "access_token"
          | none => none)
      else none)
    ∧ (is_token_valid m now = true ↔
        ∃ d e, m.token_data = some d ∧ d ≠ [] ∧ m.token_expiry = some e ∧ now + 10 < e)
    ∧ is_token_valid ⟨some [("access_token", "tok")], some (now + 9)⟩ now = false
    ∧ get_token ⟨some [("access_token", "tok")], some (now + 9)⟩ now = none
    ∧ is_token_valid ⟨some [("access_token", "tok")], some (now + 11)⟩ now = true
    ∧ get_token ⟨some [("access_token", "tok")], some (now + 11)⟩ now = some "tok" := by
  refine ⟨?_, ?_, ?_, ?_, ?_, ?_⟩
  · rw [get_token]
    by_cases h : is_token_valid m now
    · rw [if_pos h, if_pos h]
    · rw [if_neg h, if_neg h]
      have : (if can_refresh_token m then refresh_token m else request_new_token m) = false := by
        rcases can_refresh_token m <;> simp [refresh_token, request_new_token]
      simp [this]
  · constructor
    · intro h
      match hd : m.token_data, he : m.token_expiry with
      | some d, some e =>
        rw [is_token_valid, hd, he] at h
        have h' : (if d.isEmpty = true then false else decide (now < e - 10)) = true := h
        by_cases hde : d.isEmpty
        · simp [hde] at h'
        · refine ⟨d, e, rfl, ?_, rfl, ?_⟩
          · simpa [List.isEmpty_iff] using hde
          · rw [if_neg hde] at h'
            have := of_decide_eq_true h'
            omega
      | some d, none => rw [is_token_valid, hd, he] at h; exact absurd h (by simp)
      | none, some e => rw [is_token_valid, hd, he] at h; exact absurd h (by simp)
      | none, none => rw [is_token_valid, hd, he] at h; exact absurd h (by simp)
    · rintro ⟨d, e, hd, hne, he, hlt⟩
      rw [is_token_valid, hd, he]
      have hde : ¬ d.isEmpty = true := by simpa [List.isEmpty_iff] using hne
      show (if d.isEmpty = true then false else decide (now < e - 10)) = true
      rw [if_neg hde]
      exact decide_eq_true (by omega)
  · rw [is_token_valid]
    simp only [List.isEmpty_cons, if_false]
    exact decide_eq_false (by omega)
  · rw [get_token]
    have hv : is_token_valid ⟨some [("access_token", "tok")], some (now + 9)⟩ now = false := by
      rw [is_token_valid]
      simp only [List.isEmpty_cons, if_false]
      exact decide_eq_false (by omega)
    rw [hv]
    simp [can_refresh_token, alookup, refresh_token, request_new_token]
  · rw [is_token_valid]
    simp only [List.isEmpty_cons, if_false]
    exact decide_eq_true (by omega)
  · rw [get_token]
    have hv : is_token_valid ⟨some [("access_token", "tok")], some (now + 11)⟩ now = true := by
      rw [is_token_valid]
      simp only [List.isEmpty_cons, if_false]
      exact decide_eq_true (by omega)
    rw [hv]
    simp [alookup]

/-!
## Backoff computation (`api/rate_limiter.py`, `RateLimiter._calculate_backoff_time`)

`base_backoff = base ** retry_count; jitter = random.uniform(0, 0.2 * base_backoff);
return base_backoff + jitter`.  Arithmetic is idealised over `ℚ`;
`random.uniform(0, c)` is `c * r` where `r` is `random.random()`'s output,
a value in `[0, 1)`.
-/

/-- Source `RateLimiter._calculate_backoff_time` (rate_limiter.py lines 104-123),
with the random draw made explicit: `r` is the value of `random.random()`. -/
def calculate_backoff_time (base : ℚ) (retry_count : Nat) (r : ℚ) : ℚ :=
  let base_backoff := base ^ retry_count
  let jitter := (1 / 5 * base_backoff) * r
  base_backoff + jitter

/-- C5: for retry attempt `n ∈ {1, 2, 3}` with backoff base 2.0, the backoff
equals `2 ^ n` plus a jitter `0.2 * 2 ^ n * r` drawn uniformly from the
unit-scaled range, and lies in the half-open interval
`[2 ^ n, 1.2 * 2 ^ n)` seconds. -/
theorem c5_backoff_interval (n : Nat) (r : ℚ) (hn : 1 ≤ n ∧ n ≤ 3)
    (hr : 0 ≤ r ∧ r < 1) :
    calculate_backoff_time 2 n r = 2 ^ n + (1 / 5 * 2 ^ n) * r
    ∧ (2 : ℚ) ^ n ≤ calculate_backoff_time 2 n r
    ∧ calculate_backoff_time 2 n r < 6 / 5 * 2 ^ n := by
  obtain ⟨hr0, hr1⟩ := hr
  have hpow : (0 : ℚ) < 2 ^ n := by positivity
  refine ⟨rfl, ?_, ?_⟩
  · show (2 : ℚ) ^ n ≤ 2 ^ n + (1 / 5 * 2 ^ n) * r
    nlinarith
  · show (2 : ℚ) ^ n + (1 / 5 * 2 ^ n) * r < 6 / 5 * 2 ^ n
    nlinarith

/-- Witness for C5 at `n = 2`, `r = 1/3`. -/
theorem c5_backoff_interval_witness :
    (1 ≤ 2 ∧ 2 ≤ 3) ∧ ((0 : ℚ) ≤ 1 / 3 ∧ (1 : ℚ) / 3 < 1)
    ∧ (calculate_backoff_time 2 2 (1 / 3) = 2 ^ 2 + (1 / 5 * 2 ^ 2) * (1 / 3)
        ∧ (2 : ℚ) ^ 2 ≤ calculate_backoff_time 2 2 (1 / 3)
        ∧ calculate_backoff_time 2 2 (1 / 3) < 6 / 5 * 2 ^ 2) :=
  ⟨⟨by norm_num, by norm_num⟩, ⟨by norm_num, by norm_num⟩,
    c5_backoff_interval 2 (1 / 3) ⟨by norm_num, by norm_num⟩ ⟨by norm_num, by norm_num⟩⟩

/-!
## Configuration environment-variable overrides (`config.py`)

`Config._merge_env_vars` (config.py lines 212-229) walks every key of every
known section; if `CONFIG_<SECTION>_<KEY>` (upper-cased) is set, the value is
replaced by the environment string coerced "to the original value's type":

```
if isinstance(value, int):     section_dict[key] = int(env_value)
elif isinstance(value, float): section_dict[key] = float(env_value)
elif isinstance(value, bool):  section_dict[key] = env_value.lower() in ("true", "1", "yes")
else:                          section_dict[key] = env_value
```

In Python, `bool` is a subclass of `int`, so `isinstance(True, int)` is true:
a boolean original value takes the *first* branch, and `int(env_value)`
raises `ValueError` on a string such as `"true"`.  The `isinstance(value,
bool)` branch is unreachable.  The model reproduces Python's `isinstance`
semantics; `Option` is the result, with `none` standing for an uncaught
`ValueError` propagating out of the merge.
-/

/-- A scalar Python configuration value. -/
inductive PyVal
  | pyInt (n : Int)
  | pyFloat (q : ℚ)
  | pyBool (b : Bool)
  | pyStr (s : String)
deriving DecidableEq, Repr

/-- Python `isinstance(v, int)`: true for `int` *and* `bool` values, because
`bool` is a subclass of `int`. -/
def isinstanceInt : PyVal → Bool
  | .pyInt _ => true
  | .pyBool _ => true
  | _ => false

/-- Python `isinstance(v, float)`. -/
def isinstanceFloat : PyVal → Bool
  | .pyFloat _ => true
  | _ => false

/-- Python `isinstance(v, bool)`. -/
def isinstanceBool : PyVal → Bool
  | .pyBool _ => true
  | _ => false

/-- ASCII upper-casing of a character (the configuration keys and section
names are ASCII). -/
def charUpper (c : Char) : Char :=
  if 'a' ≤ c ∧ c ≤ 'z' then Char.ofNat (c.toNat - 32) else c

/-- Python `str.upper()` on ASCII strings. -/
def strUpper (s : String) : String := ⟨s.data.map charUpper⟩

/-- ASCII lower-casing of a character. -/
def charLower (c : Char) : Char :=
  if 'A' ≤ c ∧ c ≤ 'Z' then Char.ofNat (c.toNat + 32) else c

/-- Python `str.lower()` on ASCII strings. -/
def strLower (s : String) : String := ⟨s.data.map charLower⟩

/-- Accumulate decimal digits; `none` once a non-digit is seen or when the
digit string is empty — the `ValueError` of Python `int(s)`. -/
def pyDigits : List Char → Option Nat → Option Nat
  | [], acc => acc
  | c :: cs, acc =>
    if '0' ≤ c ∧ c ≤ '9' then
      pyDigits cs (some ((acc.getD 0) * 10 + (c.toNat - '0'.toNat)))
    else none

/-- Python `int(s)` on the plain decimal strings this configuration uses
(optional sign, digits); `none` models `ValueError` — in particular
`int("true")` fails. -/
def pyIntParse (s : String) : Option Int :=
  match s.data with
  | '-' :: rest => (pyDigits rest none).map (fun n => -(n : Int))
  | '+' :: rest => (pyDigits rest none).map (fun n => (n : Int))
  | cs => (pyDigits cs none).map (fun n => (n : Int))

/-- Split a character list at the first `'.'`, if any. -/
def splitAtDot : List Char → List Char × Option (List Char)
  | [] => ([], none)
  | c :: cs =>
    if c = '.' then ([], some cs)
    else
      let r := splitAtDot cs
      (c :: r.1, r.2)

/-- Python `float(s)` on the plain decimal forms this configuration uses
(optional sign, digits, optional single fractional part); exotic float
syntax (exponents, `inf`, `nan`) is outside the model. `none` models
`ValueError`. -/
def pyFloatParse (s : String) : Option ℚ :=
  let core : List Char → Option ℚ := fun cs =>
    match splitAtDot cs with
    | (ip, none) => (pyDigits ip none).map (fun n => (n : ℚ))
    | (ip, some fp) =>
      match pyDigits ip none, pyDigits fp none with
      | some i, some f => some ((i : ℚ) + (f : ℚ) / (10 : ℚ) ^ fp.length)
      | _, _ => none
  match s.data with
  | '-' :: rest => (core rest).map Neg.neg
  | '+' :: rest => core rest
  | cs => core cs

/-- The per-value coercion of `Config._merge_env_vars` (config.py lines
221-229), branch for branch. `none` is an uncaught `ValueError`. -/
def coerce_env_value (orig : PyVal) (env_value : String) : Option PyVal :=
  if isinstanceInt orig then (pyIntParse env_value).map PyVal.pyInt
  else if isinstanceFloat orig then (pyFloatParse env_value).map PyVal.pyFloat
  else if isinstanceBool orig then
    some (.pyBool (["true", "1", "yes"].contains (strLower env_value)))
  else some (.pyStr env_value)

/-- One section's pass of `Config._merge_env_vars` (config.py lines 212-229):
for every key of the section dict, if `CONFIG_<SECTION>_<KEY>` (upper-cased)
is in the environment, coerce and replace the value. `none` models the
`ValueError` raised out of the loop. -/
def merge_env_vars_section (section_name : String) (sect : List (String × PyVal))
    (env : List (String × String)) : Option (List (String × PyVal)) :=
  sect.mapM (fun kv =>
    match alookup env ("CONFIG_" ++ strUpper section_name ++ "_" ++ strUpper kv.1) with
    | some env_value => (coerce_env_value kv.2 env_value).map (fun v => (kv.1, v))
    | none => some kv)

/-- Modelled from the spec: the coercion rule as §4.1 states it — "coerced to
the original value's type (integer, float, boolean via case-insensitive
membership in \x7b"true","1","yes"\x7d, or left as string)" — dispatching on
the actual type of the original value. -/
def coerce_env_value_spec (orig : PyVal) (env_value : String) : Option PyVal :=
  match orig with
  | .pyInt _ => (pyIntParse env_value).map PyVal.pyInt
  | .pyFloat _ => (pyFloatParse env_value).map PyVal.pyFloat
  | .pyBool _ => some (.pyBool (["true", "1", "yes"].contains (strLower env_value)))
  | .pyStr _ => some (.pyStr env_value)

/-- C6: at a boolean configuration value overridden by `"true"`, the code
raises (`isinstance(True, int)` holds, so `int("true")` is evaluated and
fails) where the spec's coercion rule yields the boolean `true`; with the
environment string `"1"` the code yields the integer `1`, not a boolean.
The `isinstance(value, bool)` branch of the source is dead code. -/
theorem c6_bool_override_broken :
    merge_env_vars_section "mlb_api" [("verify_ssl", PyVal.pyBool true)]
        [("CONFIG_MLB_API_VERIFY_SSL", "true")] = none
    ∧ coerce_env_value (PyVal.pyBool true) "true" = none
    ∧ coerce_env_value_spec (PyVal.pyBool true) "true" = some (PyVal.pyBool true)
    ∧ coerce_env_value (PyVal.pyBool true) "1" = some (PyVal.pyInt 1)
    ∧ coerce_env_value_spec (PyVal.pyBool true) "1" = some (PyVal.pyBool true) := by
  refine ⟨?_, ?_, ?_, ?_, ?_⟩ <;> rfl

/-!
## Top-pitchers query validation (`storage/local_storage.py`, `LocalStorage.get_top_pitchers`)

The interesting behaviour is the input validation before the single
`execute_query` call; `TopPitchersQuery` stands for the parameters of that
query (`Except.error` means `ValueError` was raised and no query executed).
-/

/-- The statistic allow-list of `get_top_pitchers`
(local_storage.py lines 1162-1165). -/
def valid_stats : List String :=
  ["era", "whip", "wins", "losses", "saves", "strike_outs",
   "base_on_balls", "innings_pitched", "home_runs", "hits"]

/-- The parameters of the SQL query `get_top_pitchers` builds and executes. -/
structure TopPitchersQuery where
  season : Int
  stat : String
  min_innings : ℚ
  limit : Int
  order : String
deriving DecidableEq, Repr

/-- Source `LocalStorage.get_top_pitchers` (local_storage.py lines 1142-1188):
reject a statistic outside the allow-list with `ValueError` before querying;
silently fall back to `'ASC'` for any order other than `'ASC'`/`'DESC'`;
otherwise execute the one query with these parameters. -/
def get_top_pitchers (season : Int) (stat : String) (min_innings : ℚ)
    (limit : Int) (order : String) : Except String TopPitchersQuery :=
  if valid_stats.contains stat = false then
    Except.error ("Invalid stat: " ++ stat)
  else
    let order2 := if ["ASC", "DESC"].contains order then order else "ASC"
    Except.ok ⟨season, stat, min_innings, limit, order2⟩

/-- C7: every statistic outside the allow-list is rejected with an
invalid-input failure before any query executes, and any sort order other
than `'ASC'`/`'DESC'` silently falls back to ascending while a valid order is
kept. -/
theorem c7_top_pitchers_validation (season : Int) (stat : String) (mi : ℚ)
    (lim : Int) (order : String) :
    (stat ∉ valid_stats →
      get_top_pitchers season stat mi lim order = Except.error ("Invalid stat: " ++ stat))
    ∧ (stat ∈ valid_stats →
        get_top_pitchers season stat mi lim order =
          Except.ok ⟨season, stat, mi, lim,
            if order = "ASC" ∨ order = "DESC" then order else "ASC"⟩) := by
  constructor
  · intro h
    rw [get_top_pitchers, if_pos]
    simpa using h
  · intro h
    have hc : valid_stats.contains stat = true := by simpa using h
    rw [get_top_pitchers, hc]
    simp only [Bool.true_eq_false, if_false]
    congr 1
    by_cases ho : order = "ASC" ∨ order = "DESC"
    · have : (["ASC", "DESC"].contains order) = true := by
        rcases ho with h1 | h1 <;> simp [h1]
      simp [this, ho]
    · have : (["ASC", "DESC"].contains order) = false := by
        push_neg at ho
        simp [ho.1, ho.2]
      simp [this, ho]

/-- Witness for C7: `"batting_average"` is rejected; `"era"` with order
`"desc"` (lower-case, not in the order allow-list) falls back to ascending. -/
theorem c7_top_pitchers_validation_witness :
    get_top_pitchers 2023 "batting_average" 50 10 "ASC"
      = Except.error "Invalid stat: batting_average"
    ∧ get_top_pitchers 2023 "era" 50 10 "desc"
      = Except.ok ⟨2023, "era", 50, 10, "ASC"⟩ := by
  constructor
  · exact (c7_top_pitchers_validation 2023 "batting_average" 50 10 "ASC").1 (by decide)
  · have h := (c7_top_pitchers_validation 2023 "era" 50 10 "desc").2 (by decide)
    rw [h]
    congr 1

/-!
## Local storage: entity upserts (`storage/local_storage.py`, `storage/schema.py`)

SQLite values (with `PRAGMA foreign_keys = ON`).  A table is a list of rows;
`INSERT ... ON CONFLICT(<pk>) DO UPDATE SET <every non-key column> =
excluded.<column>` replaces the unique row with the conflicting key and
otherwise appends.  Incoming Python dicts are `DataDict`s; `datetime.now()`
values arrive through the `now` parameters (the sqlite3 driver stores
datetimes as text).  `Except.error` models the exception raised (and
re-raised after rollback) on a missing required field or a constraint
violation.
-/

/-- A SQLite storage value. Python `True`/`False` bind as `int 1`/`int 0`. -/
inductive SqlVal
  | null
  | int (n : Int)
  | real (q : ℚ)
  | text (s : String)
deriving DecidableEq, Repr

/-- An incoming record dict (`player_data`, `pitch_data`, ...). -/
abbrev DataDict := List (String × SqlVal)

/-- Python `d[k]` / `d.get(k)` after required-field validation: `None` binds
as SQL NULL. -/
def dget (d : DataDict) (k : String) : SqlVal := (alookup d k).getD .null

/-- Python `d.get(k, default)`. -/
def dgetD (d : DataDict) (k : String) (dflt : SqlVal) : SqlVal := (alookup d k).getD dflt

/-- Upsert `INSERT ... ON CONFLICT(pk) DO UPDATE SET ...`: if some row has the new
row's key, every such row is overwritten in place (with a unique key, exactly
one); otherwise the row is appended. -/
def upsertById {Row : Type} (getId : Row → SqlVal) (table : List Row) (row : Row) :
    List Row :=
  if table.any (fun r => decide (getId r = getId row)) then
    table.map (fun r => if getId r = getId row then row else r)
  else table ++ [row]

theorem noId_map_filter {Row : Type} (getId : Row → SqlVal) (i : SqlVal) (row : Row)
    (l : List Row) (h : ∀ r ∈ l, getId r ≠ i) :
    l.map (fun r => if getId r = i then row else r) = l
    ∧ l.filter (fun r => decide (getId r = i)) = [] := by
  induction l with
  | nil => simp
  | cons t ts ih =>
    have ht : getId t ≠ i := h t (by simp)
    have ⟨ih1, ih2⟩ := ih (fun r hr => h r (by simp [hr]))
    constructor
    · simp [List.map_cons, if_neg ht, ih1]
    · simp [List.filter_cons, ht, ih2]

theorem replace_ids {Row : Type} (getId : Row → SqlVal) (i : SqlVal) (row : Row)
    (hrow : getId row = i) (l : List Row) :
    (l.map (fun r => if getId r = i then row else r)).map getId = l.map getId := by
  induction l with
  | nil => simp
  | cons t ts ih =>
    by_cases ht : getId t = i
    · simp [List.map_cons, if_pos ht, ih, hrow, ht]
    · simp [List.map_cons, if_neg ht, ih]

theorem replace_filter {Row : Type} (getId : Row → SqlVal) (i : SqlVal) (row : Row)
    (hrow : getId row = i) :
    ∀ table : List Row, (table.map getId).Nodup → (∃ r ∈ table, getId r = i) →
      (table.map (fun r => if getId r = i then row else r)).filter
          (fun r => decide (getId r = i)) = [row] := by
  intro table
  induction table with
  | nil => rintro _ ⟨r, hr, _⟩; simp at hr
  | cons t ts ih =>
    intro hnd hex
    rw [List.map_cons, List.nodup_cons] at hnd
    by_cases ht : getId t = i
    · have hts : ∀ r ∈ ts, getId r ≠ i := by
        intro r hr hri
        exact hnd.1 (ht ▸ hri ▸ List.mem_map_of_mem getId hr)
      have ⟨hm, hf⟩ := noId_map_filter getId i row ts hts
      simp [List.map_cons, if_pos ht, List.filter_cons, hrow, hm, hf]
    · obtain ⟨r, hr, hri⟩ := hex
      rcases List.mem_cons.mp hr with h1 | h1
      · exact absurd (h1 ▸ hri) ht
      · have := ih hnd.2 ⟨r, h1, hri⟩
        simp [List.map_cons, if_neg ht, List.filter_cons, ht, this]

theorem upsertById_spec {Row : Type} (getId : Row → SqlVal) (table : List Row) (row : Row)
    (h : (table.map getId).Nodup) :
    ((upsertById getId table row).map getId).Nodup
    ∧ (upsertById getId table row).filter (fun r => decide (getId r = getId row)) = [row]
    ∧ row ∈ upsertById getId table row := by
  by_cases hmem : table.any (fun r => decide (getId r = getId row))
  · obtain ⟨r0, hr0, hr0i⟩ := by simpa using List.any_eq_true.mp hmem
    rw [upsertById, if_pos hmem]
    refine ⟨?_, ?_, ?_⟩
    · rw [replace_ids getId (getId row) row rfl]; exact h
    · exact replace_filter getId (getId row) row rfl table h ⟨r0, hr0, hr0i⟩
    · exact List.mem_map.mpr ⟨r0, hr0, by rw [if_pos hr0i]⟩
  · have hno : ∀ r ∈ table, getId r ≠ getId row := by
      intro r hr hri
      exact hmem (List.any_eq_true.mpr ⟨r, hr, by simp [hri]⟩)
    rw [upsertById, if_neg hmem]
    refine ⟨?_, ?_, ?_⟩
    · rw [List.map_append, List.nodup_append]
      refine ⟨h, by simp, ?_⟩
      intro x hx
      simp only [List.map_cons, List.map_nil, List.mem_singleton]
      obtain ⟨r, hr, hri⟩ := List.mem_map.mp hx
      intro hxi
      exact hno r hr (by rw [hri, hxi])
    · rw [List.filter_append, (noId_map_filter getId (getId row) row table hno).2]
      simp
    · simp

/-!
### Players (`LocalStorage.insert_player`, schema table `players`)
-/

/-- The required fields of `insert_player` (local_storage.py line 239). -/
def player_required_fields : List String := ["id", "full_name", "first_name", "last_name"]

/-- One row of the `players` table (schema.py): columns in the order of the
INSERT statement of `insert_player`. -/
structure PlayerRow where
  id : SqlVal
  full_name : SqlVal
  first_name : SqlVal
  last_name : SqlVal
  primary_number : SqlVal
  birth_date : SqlVal
  throws : SqlVal
  height_feet : SqlVal
  height_inches : SqlVal
  weight : SqlVal
  mlb_debut_date : SqlVal
  active : SqlVal
  primary_position : SqlVal
  team_id : SqlVal
  updated_at : SqlVal
deriving DecidableEq, Repr

/-- The parameter tuple of `insert_player` (local_storage.py lines 272-288):
required fields by key access, optionals via `.get` (absent → NULL),
`active` defaulting to `True` (stored as 1), `updated_at` defaulting to the
current time. -/
def playerRowOf (d : DataDict) (now : SqlVal) : PlayerRow where
  id := dget d "id"
  full_name := dget d "full_name"
  first_name := dget d "first_name"
  last_name := dget d "last_name"
  primary_number := dget d "primary_number"
  birth_date := dget d "birth_date"
  throws := dget d "throws"
  height_feet := dget d "height_feet"
  height_inches := dget d "height_inches"
  weight := dget d "weight"
  mlb_debut_date := dget d "mlb_debut_date"
  active := dgetD d "active" (.int 1)
  primary_position := dget d "primary_position"
  team_id := dget d "team_id"
  updated_at := dgetD d "updated_at" now

/-- The constraints the `players` DDL (schema.py lines 276-295) imposes on an
inserted row: NOT NULL on `id` (primary key), the name columns, `active` and
`updated_at`; the foreign key `team_id REFERENCES teams(id)` (enforced, with
NULL allowed) against the ids of the `teams` table. -/
def playerRowOk (teams : List SqlVal) (r : PlayerRow) : Prop :=
  r.id ≠ .null ∧ r.full_name ≠ .null ∧ r.first_name ≠ .null ∧ r.last_name ≠ .null
  ∧ r.active ≠ .null ∧ r.updated_at ≠ .null
  ∧ (r.team_id = .null ∨ r.team_id ∈ teams)

instance (teams : List SqlVal) (r : PlayerRow) : Decidable (playerRowOk teams r) := by
  unfold playerRowOk; infer_instance

/-- Source `LocalStorage.insert_player` (local_storage.py lines 224-299): validate the
required fields (raising `ValueError` naming the first missing one), default
`updated_at`, then run the UPSERT; a constraint violation raises (and is
re-raised after rollback). `teams` is the id column of the `teams` table, for
the foreign-key check. -/
def insert_player (teams : List SqlVal) (table : List PlayerRow) (player_data : DataDict)
    (now : SqlVal) : Except String (List PlayerRow) :=
  match player_required_fields.find? (fun f => (alookup player_data f).isNone) with
  | some f => Except.error ("Missing required field: " ++ f)
  | none =>
    let row := playerRowOf player_data now
    if playerRowOk teams row then Except.ok (upsertById PlayerRow.id table row)
    else Except.error "IntegrityError"

/-- C8: player upsert is idempotent up to last-write-wins — inserting a
record and then a second record with the same id leaves exactly one `players`
row for that id, all of whose columns come from the second insert. Stated
over any well-formed table (unique ids, as the PRIMARY KEY guarantees) and
inputs satisfying the schema constraints. -/
theorem c8_insert_player_upsert (teams : List SqlVal) (table : List PlayerRow)
    (d1 d2 : DataDict) (now1 now2 : SqlVal)
    (h1 : ∀ f ∈ player_required_fields, (alookup d1 f).isSome = true)
    (h2 : ∀ f ∈ player_required_fields, (alookup d2 f).isSome = true)
    (hc1 : playerRowOk teams (playerRowOf d1 now1))
    (hc2 : playerRowOk teams (playerRowOf d2 now2))
    (hid : (playerRowOf d2 now2).id = (playerRowOf d1 now1).id)
    (hnodup : (table.map PlayerRow.id).Nodup) :
    ∃ t1 t2, insert_player teams table d1 now1 = Except.ok t1
      ∧ insert_player teams t1 d2 now2 = Except.ok t2
      ∧ t2.filter (fun r => decide (r.id = (playerRowOf d2 now2).id)) = [playerRowOf d2 now2]
      ∧ (t2.map PlayerRow.id).Nodup := by
  have hfind1 : player_required_fields.find? (fun f => (alookup d1 f).isNone) = none := by
    rw [List.find?_eq_none]
    intro f hf
    simp [Option.isNone_iff_eq_none]
    exact Option.isSome_iff_ne_none.mp (h1 f hf)
  have hfind2 : player_required_fields.find? (fun f => (alookup d2 f).isNone) = none := by
    rw [List.find?_eq_none]
    intro f hf
    simp [Option.isNone_iff_eq_none]
    exact Option.isSome_iff_ne_none.mp (h2 f hf)
  refine ⟨upsertById PlayerRow.id table (playerRowOf d1 now1),
          upsertById PlayerRow.id (upsertById PlayerRow.id table (playerRowOf d1 now1))
            (playerRowOf d2 now2), ?_, ?_, ?_, ?_⟩
  · rw [insert_player, hfind1]
    simp only [if_pos hc1]
  · rw [insert_player, hfind2]
    simp only [if_pos hc2]
  · have hnd1 := (upsertById_spec PlayerRow.id table (playerRowOf d1 now1) hnodup).1
    have := (upsertById_spec PlayerRow.id _ (playerRowOf d2 now2) hnd1).2.1
    exact this
  · have hnd1 := (upsertById_spec PlayerRow.id table (playerRowOf d1 now1) hnodup).1
    exact (upsertById_spec PlayerRow.id _ (playerRowOf d2 now2) hnd1).1

/-- Witness for C8: two inserts of player id 1 (second with a later
`updated_at`) into an empty database leave exactly the second record's row. -/
theorem c8_insert_player_upsert_witness :
    ∃ t1 t2,
      insert_player [] []
        [("id", SqlVal.int 1), ("full_name", SqlVal.text "Max Power"),
         ("first_name", SqlVal.text "Max"), ("last_name", SqlVal.text "Power"),
         ("updated_at", SqlVal.text "2024-01-01T00:00:00")] (SqlVal.text "now1")
        = Except.ok t1
      ∧ insert_player [] t1
          [("id", SqlVal.int 1), ("full_name", SqlVal.text "Max Power"),
           ("first_name", SqlVal.text "Max"), ("last_name", SqlVal.text "Power"),
           ("updated_at", SqlVal.text "2024-02-01T00:00:00")] (SqlVal.text "now2")
          = Except.ok t2
      ∧ t2.filter (fun r => decide (r.id =
          (playerRowOf
            [("id", SqlVal.int 1), ("full_name", SqlVal.text "Max Power"),
             ("first_name", SqlVal.text "Max"), ("last_name", SqlVal.text "Power"),
             ("updated_at", SqlVal.text "2024-02-01T00:00:00")] (SqlVal.text "now2")).id))
          = [playerRowOf
              [("id", SqlVal.int 1), ("full_name", SqlVal.text "Max Power"),
               ("first_name", SqlVal.text "Max"), ("last_name", SqlVal.text "Power"),
               ("updated_at", SqlVal.text "2024-02-01T00:00:00")] (SqlVal.text "now2")]
      ∧ (t2.map PlayerRow.id).Nodup :=
  c8_insert_player_upsert [] []
    [("id", SqlVal.int 1), ("full_name", SqlVal.text "Max Power"),
     ("first_name", SqlVal.text "Max"), ("last_name", SqlVal.text "Power"),
     ("updated_at", SqlVal.text "2024-01-01T00:00:00")]
    [("id", SqlVal.int 1), ("full_name", SqlVal.text "Max Power"),
     ("first_name", SqlVal.text "Max"), ("last_name", SqlVal.text "Power"),
     ("updated_at", SqlVal.text "2024-02-01T00:00:00")]
    (SqlVal.text "now1") (SqlVal.text "now2")
    (by decide) (by decide) (by decide) (by decide) (by decide) (by decide)

/-!
### Pitches (`LocalStorage.insert_pitch`, schema table `pitches`)
-/

/-- The required fields of `insert_pitch` (local_storage.py line 658). -/
def pitch_required_fields : List String :=
  ["id", "player_id", "game_id", "at_bat_id", "pitch_number", "pitch_type"]

/-- One row of the `pitches` table (schema.py lines 408-454): columns in the
order of the INSERT statement of `insert_pitch`. -/
structure PitchRow where
  id : SqlVal
  player_id : SqlVal
  game_id : SqlVal
  at_bat_id : SqlVal
  pitch_number : SqlVal
  pitch_type : SqlVal
  start_speed : SqlVal
  end_speed : SqlVal
  spin_rate : SqlVal
  spin_direction : SqlVal
  break_angle : SqlVal
  break_length : SqlVal
  break_y : SqlVal
  zone : SqlVal
  plate_x : SqlVal
  plate_z : SqlVal
  px : SqlVal
  pz : SqlVal
  x0 : SqlVal
  y0 : SqlVal
  z0 : SqlVal
  vx0 : SqlVal
  vy0 : SqlVal
  vz0 : SqlVal
  description : SqlVal
  type : SqlVal
  strike_type : SqlVal
  ball_type : SqlVal
  event : SqlVal
  inning : SqlVal
  top_bottom : SqlVal
  outs : SqlVal
  balls : SqlVal
  strikes : SqlVal
  batter_id : SqlVal
  batter_side : SqlVal
  game_date : SqlVal
  pitcher_hand : SqlVal
  source : SqlVal
  updated_at : SqlVal
deriving DecidableEq, Repr

/-- The parameter tuple of `insert_pitch` (local_storage.py lines 722-763):
required fields by key access, optional measurement/outcome fields via
`.get` (absent → NULL), situational fields with the source's defaults
(`inning`/`outs`/`balls`/`strikes`/`batter_id` 0, `top_bottom`/`batter_side`/
`pitcher_hand` empty string, `game_date` defaulting to `datetime.now()`,
`source` "statcast"), `updated_at` defaulting to the current time. -/
def pitchRowOf (d : DataDict) (now : String) : PitchRow where
  id := dget d "id"
  player_id := dget d "player_id"
  game_id := dget d "game_id"
  at_bat_id := dget d "at_bat_id"
  pitch_number := dget d "pitch_number"
  pitch_type := dget d "pitch_type"
  start_speed := dget d "start_speed"
  end_speed := dget d "end_speed"
  spin_rate := dget d "spin_rate"
  spin_direction := dget d "spin_direction"
  break_angle := dget d "break_angle"
  break_length := dget d "break_length"
  break_y := dget d "break_y"
  zone := dget d "zone"
  plate_x := dget d "plate_x"
  plate_z := dget d "plate_z"
  px := dget d "px"
  pz := dget d "pz"
  x0 := dget d "x0"
  y0 := dget d "y0"
  z0 := dget d "z0"
  vx0 := dget d "vx0"
  vy0 := dget d "vy0"
  vz0 := dget d "vz0"
  description := dget d "description"
  type := dget d "type"
  strike_type := dget d "strike_type"
  ball_type := dget d "ball_type"
  event := dget d "event"
  inning := dgetD d "inning" (.int 0)
  top_bottom := dgetD d "top_bottom" (.text "")
  outs := dgetD d "outs" (.int 0)
  balls := dgetD d "balls" (.int 0)
  strikes := dgetD d "strikes" (.int 0)
  batter_id := dgetD d "batter_id" (.int 0)
  batter_side := dgetD d "batter_side" (.text "")
  game_date := dgetD d "game_date" (.text now)
  pitcher_hand := dgetD d "pitcher_hand" (.text "")
  source := dgetD d "source" (.text "statcast")
  updated_at := dgetD d "updated_at" (.text now)

/-- Source `LocalStorage.insert_pitch` (local_storage.py lines 643-774):
validate the required fields (raising `ValueError` naming the first missing
one), default `updated_at`, build the parameter tuple (`pitchRowOf`), then
`cursor.execute` the UPSERT.  The `pitches` DDL declares
`FOREIGN KEY (game_id) REFERENCES games (id)` (schema.py line 451), but
`SCHEMA_DEFINITIONS` (schema.py lines 275-512) creates no `games` table at
all — its tables are players, teams, season_pitching_stats,
game_pitching_stats, pitches, pitching_mix_stats and split_stats.  With
`PRAGMA foreign_keys = ON` (local_storage.py line 67), SQLite therefore
aborts every INSERT into `pitches` with `no such table: main.games`
(regardless of the row's values), and `insert_pitch` re-raises after
rollback: it has no success path against a database this system creates. -/
def insert_pitch (table : List PitchRow) (pitch_data : DataDict) (now : String) :
    Except String (List PitchRow) :=
  match pitch_required_fields.find? (fun f => (alookup pitch_data f).isNone) with
  | some f => Except.error ("Missing required field: " ++ f)
  | none => Except.error "no such table: main.games"

/-- C10: the claim's `game_date` default is real — the parameter tuple built
by `insert_pitch` supplies `datetime.now()` for an absent `game_date`, so the
NOT NULL constraint on `game_date` would never be violated by an absent field
— but the insert never succeeds: the `pitches` table's `game_id` foreign key
references a `games` table the schema never creates, so with foreign keys
enforced every INSERT into `pitches` aborts with `no such table: main.games`.
Evaluated at the failing input, and shown for every input: `insert_pitch`
never returns a table. -/
theorem c10_insert_pitch_no_games_table :
    insert_pitch []
        [("id", SqlVal.text "5_1_1"), ("player_id", SqlVal.int 10),
         ("game_id", SqlVal.int 5), ("at_bat_id", SqlVal.int 1),
         ("pitch_number", SqlVal.int 1), ("pitch_type", SqlVal.text "FF")]
        "2024-05-01T19:00:00" = Except.error "no such table: main.games"
    ∧ (pitchRowOf
        [("id", SqlVal.text "5_1_1"), ("player_id", SqlVal.int 10),
         ("game_id", SqlVal.int 5), ("at_bat_id", SqlVal.int 1),
         ("pitch_number", SqlVal.int 1), ("pitch_type", SqlVal.text "FF")]
        "2024-05-01T19:00:00").game_date = SqlVal.text "2024-05-01T19:00:00"
    ∧ ∀ (table result : List PitchRow) (d : DataDict) (now : String),
        insert_pitch table d now ≠ Except.ok result := by
  refine ⟨rfl, by decide, ?_⟩
  intro table result d now h
  rw [insert_pitch] at h
  cases hf : pitch_required_fields.find? (fun f => (alookup d f).isNone) with
  | some f =>
    rw [hf] at h
    exact Except.noConfusion
      (show Except.error ("Missing required field: " ++ f) = Except.ok result from h)
  | none =>
    rw [hf] at h
    exact Except.noConfusion
      (show (Except.error "no such table: main.games" : Except String (List PitchRow))
        = Except.ok result from h)

/-!
## Data synchronizer: merge and diff (`storage/sync.py`)

`merge_data` and `detect_changes` operate on lists of JSON records.  A record
(Python dict) is an association list with string keys; the values relevant to
both algorithms (notably `updated_at`) are modelled as strings.  Python `>`
on strings is code-point lexicographic comparison; `json.dumps(item,
sort_keys=True)` serialisations of two dicts are equal exactly when the dicts
are equal, i.e. when their key-sorted association lists coincide (`canon`).
Python set iteration order is unspecified; the model iterates keys in index
order, which is the order of first occurrence — all statements proved are
order-independent (membership and disjointness).
-/

/-- A JSON record (Python dict with string keys and, in this model, string
values). -/
abbrev Record := List (String × String)

/-- Code-point lexicographic `<` on character lists (Python `str.__lt__`). -/
def charListLt : List Char → List Char → Bool
  | [], [] => false
  | [], _ :: _ => true
  | _ :: _, [] => false
  | c :: cs, d :: ds => if c < d then true else if d < c then false else charListLt cs ds

/-- Python `s < t` on strings. -/
def strLt (s t : String) : Bool := charListLt s.data t.data

/-- Python `s <= t` on strings (total order: `s ≤ t ↔ ¬ t < s`). -/
def strLe (s t : String) : Bool := !(strLt t s)

/-- The timestamp test shared by `merge_data` and `detect_changes`:
`'updated_at' in second and 'updated_at' in first and second['updated_at'] >
first['updated_at']`. -/
def newerTimestamp (first_item second_item : Record) : Bool :=
  match alookup second_item "updated_at", alookup first_item "updated_at" with
  | some nt, some ot => strLt ot nt
  | _, _ => false

/-- Insert into a key-sorted association list. -/
def sortedInsert (p : String × String) : List (String × String) → List (String × String)
  | [] => [p]
  | q :: qs => if strLe p.1 q.1 then p :: q :: qs else q :: sortedInsert p qs

/-- The canonical (key-sorted) form of a record: two records have equal
`json.dumps(·, sort_keys=True)` serialisations exactly when their canonical
forms coincide. -/
def canon (r : Record) : List (String × String) := r.foldr sortedInsert []

/-- The dict comprehension `{item[key_field]: item for item in data if
key_field in item}`: build an index keyed by `key_field`, later items
overwriting earlier ones. -/
def buildIndex (key_field : String) (data : List Record) : List (String × Record) :=
  data.foldl (fun idx item =>
    match alookup item key_field with
    | some k => setEntry idx k item
    | none => idx) []

theorem foldl_index_lookup (key_field : String) (data : List Record) :
    ∀ (idx : List (String × Record)) (k : String),
      alookup (data.foldl (fun idx item =>
          match alookup item key_field with
          | some k => setEntry idx k item
          | none => idx) idx) k
        = ((data.reverse.find? (fun r => decide (alookup r key_field = some k))).or
            (alookup idx k)) := by
  induction data with
  | nil => intro idx k; simp
  | cons r rest ih =>
    intro idx k
    rw [List.foldl_cons, ih, List.reverse_cons, List.find?_append]
    cases hfind : rest.reverse.find? (fun r => decide (alookup r key_field = some k)) with
    | some r' => simp [Option.or]
    | none =>
      simp only [Option.or_none, Option.none_or]
      cases hk : alookup r key_field with
      | none => simp [List.find?, hk]
      | some k' =>
        by_cases hkk : k' = k
        · subst hkk
          simp [List.find?, hk, alookup_setEntry_self]
        · simp [List.find?, hk, hkk, alookup_setEntry_ne _ _ _ _ hkk]

/-- The index lookup is the last item of `data` carrying key `k`. -/
theorem buildIndex_lookup (key_field : String) (data : List Record) (k : String) :
    alookup (buildIndex key_field data) k
      = data.reverse.find? (fun r => decide (alookup r key_field = some k)) := by
  rw [buildIndex, foldl_index_lookup]
  simp [alookup]

theorem buildIndex_lookup_some (key_field : String) (data : List Record) (k : String)
    (r : Record) (h : alookup (buildIndex key_field data) k = some r) :
    r ∈ data ∧ alookup r key_field = some k := by
  rw [buildIndex_lookup] at h
  have hp := List.find?_some h
  simp only [decide_eq_true_eq] at hp
  exact ⟨List.mem_reverse.mp (List.mem_of_find?_eq_some h), hp⟩

theorem buildIndex_lookup_eq_none (key_field : String) (data : List Record) (k : String) :
    alookup (buildIndex key_field data) k = none
      ↔ ∀ r ∈ data, alookup r key_field ≠ some k := by
  rw [buildIndex_lookup, List.find?_eq_none]
  constructor
  · intro h r hr
    simpa using h r (List.mem_reverse.mpr hr)
  · intro h r hr
    simpa using h r (List.mem_reverse.mp hr)

theorem alookup_isSome_iff_mem_keys {α : Type} (l : List (String × α)) (k : String) :
    (alookup l k).isSome = true ↔ k ∈ l.map Prod.fst := by
  induction l with
  | nil => simp [alookup]
  | cons e es ih =>
    by_cases h : e.1 = k
    · simp [alookup, h]
    · simp [alookup, h, ih, Ne.symm h]

/-- Source `DataSynchronizer.detect_changes` (sync.py lines 271-320): index both
datasets by the key field, split the key sets into added / common / removed,
and for common keys report the new item when its `updated_at` is strictly
newer, or — the `elif`, reached whenever the timestamp test fails — when the
canonical serialisations differ. -/
def detect_changes (old_data new_data : List Record) (key_field : String) :
    List Record × List Record × List Record :=
  let old_index := buildIndex key_field old_data
  let new_index := buildIndex key_field new_data
  let old_keys := old_index.map Prod.fst
  let new_keys := new_index.map Prod.fst
  let added_keys := new_keys.filter (fun k => !(old_keys.contains k))
  let updated_keys := old_keys.filter (fun k => new_keys.contains k)
  let removed_keys := old_keys.filter (fun k => !(new_keys.contains k))
  let added_items := added_keys.filterMap (fun k => alookup new_index k)
  let updated_items := updated_keys.filterMap (fun k =>
    match alookup old_index k, alookup new_index k with
    | some old_item, some new_item =>
      if newerTimestamp old_item new_item then some new_item
      else if canon old_item = canon new_item then none else some new_item
    | _, _ => none)
  let removed_items := removed_keys.filterMap (fun k => alookup old_index k)
  (added_items, updated_items, removed_items)

/-- C1 counterexample: two records with the same key and *equal* `updated_at`
timestamps but different other content — the new record's timestamp is not
strictly newer, yet `detect_changes` reports it as updated (the content
comparison is not restricted to records without timestamps). -/
theorem c1_counterexample :
    newerTimestamp [("id", "1"), ("updated_at", "t1"), ("x", "0")]
        [("id", "1"), ("updated_at", "t1"), ("x", "1")] = false
    ∧ [("id", "1"), ("updated_at", "t1"), ("x", "1")] ∈
        (detect_changes [[("id", "1"), ("updated_at", "t1"), ("x", "0")]]
          [[("id", "1"), ("updated_at", "t1"), ("x", "1")]] "id").2.1 := by
  decide

theorem not_mem_index_keys_iff (key_field : String) (data : List Record) (k : String) :
    k ∉ (buildIndex key_field data).map Prod.fst
      ↔ ∀ o ∈ data, alookup o key_field ≠ some k := by
  rw [← alookup_isSome_iff_mem_keys, ← buildIndex_lookup_eq_none]
  cases alookup (buildIndex key_field data) k <;> simp

theorem detect_changes_added_mem (old_data new_data : List Record) (key_field : String)
    (r : Record) :
    r ∈ (detect_changes old_data new_data key_field).1
      ↔ ∃ k, alookup (buildIndex key_field new_data) k = some r
          ∧ ∀ o ∈ old_data, alookup o key_field ≠ some k := by
  show r ∈ (((buildIndex key_field new_data).map Prod.fst).filter
      (fun k => !(((buildIndex key_field old_data).map Prod.fst).contains k))).filterMap
        (fun k => alookup (buildIndex key_field new_data) k) ↔ _
  rw [List.mem_filterMap]
  constructor
  · rintro ⟨k, hk, hlook⟩
    rw [List.mem_filter] at hk
    exact ⟨k, hlook, (not_mem_index_keys_iff key_field old_data k).mp (by simpa using hk.2)⟩
  · rintro ⟨k, hlook, hnot⟩
    refine ⟨k, List.mem_filter.mpr ⟨?_, ?_⟩, hlook⟩
    · exact (alookup_isSome_iff_mem_keys _ k).mp (by simp [hlook])
    · simpa using (not_mem_index_keys_iff key_field old_data k).mpr hnot

theorem detect_changes_removed_mem (old_data new_data : List Record) (key_field : String)
    (r : Record) :
    r ∈ (detect_changes old_data new_data key_field).2.2
      ↔ ∃ k, alookup (buildIndex key_field old_data) k = some r
          ∧ ∀ n ∈ new_data, alookup n key_field ≠ some k := by
  show r ∈ (((buildIndex key_field old_data).map Prod.fst).filter
      (fun k => !(((buildIndex key_field new_data).map Prod.fst).contains k))).filterMap
        (fun k => alookup (buildIndex key_field old_data) k) ↔ _
  rw [List.mem_filterMap]
  constructor
  · rintro ⟨k, hk, hlook⟩
    rw [List.mem_filter] at hk
    exact ⟨k, hlook, (not_mem_index_keys_iff key_field new_data k).mp (by simpa using hk.2)⟩
  · rintro ⟨k, hlook, hnot⟩
    refine ⟨k, List.mem_filter.mpr ⟨?_, ?_⟩, hlook⟩
    · exact (alookup_isSome_iff_mem_keys _ k).mp (by simp [hlook])
    · simpa using (not_mem_index_keys_iff key_field new_data k).mpr hnot

theorem detect_changes_updated_mem (old_data new_data : List Record) (key_field : String)
    (r : Record) :
    r ∈ (detect_changes old_data new_data key_field).2.1
      ↔ ∃ k o, alookup (buildIndex key_field old_data) k = some o
          ∧ alookup (buildIndex key_field new_data) k = some r
          ∧ (newerTimestamp o r = true ∨ canon o ≠ canon r) := by
  show r ∈ (((buildIndex key_field old_data).map Prod.fst).filter
      (fun k => ((buildIndex key_field new_data).map Prod.fst).contains k)).filterMap
        (fun k =>
          match alookup (buildIndex key_field old_data) k,
              alookup (buildIndex key_field new_data) k with
          | some old_item, some new_item =>
            if newerTimestamp old_item new_item then some new_item
            else if canon old_item = canon new_item then none else some new_item
          | _, _ => none) ↔ _
  rw [List.mem_filterMap]
  constructor
  · rintro ⟨k, _, hmatch⟩
    cases hold : alookup (buildIndex key_field old_data) k with
    | none => rw [hold] at hmatch; simp at hmatch
    | some o =>
      cases hnew : alookup (buildIndex key_field new_data) k with
      | none => rw [hold, hnew] at hmatch; simp at hmatch
      | some n =>
        rw [hold, hnew] at hmatch
        have hm : (if newerTimestamp o n then some n
            else if canon o = canon n then none else some n) = some r := hmatch
        by_cases hts : newerTimestamp o n
        · rw [if_pos hts] at hm
          obtain rfl : n = r := by simpa using hm
          exact ⟨k, o, hold, hnew, Or.inl hts⟩
        · rw [if_neg hts] at hm
          by_cases hc : canon o = canon n
          · rw [if_pos hc] at hm; simp at hm
          · rw [if_neg hc] at hm
            obtain rfl : n = r := by simpa using hm
            exact ⟨k, o, hold, hnew, Or.inr hc⟩
  · rintro ⟨k, o, hold, hnew, hcond⟩
    refine ⟨k, List.mem_filter.mpr ⟨?_, ?_⟩, ?_⟩
    · exact (alookup_isSome_iff_mem_keys _ k).mp (by simp [hold])
    · have := (alookup_isSome_iff_mem_keys (buildIndex key_field new_data) k).mp
        (by simp [hnew])
      simpa using this
    · rw [hold, hnew]
      show (if newerTimestamp o r then some r
          else if canon o = canon r then none else some r) = some r
      rcases hcond with hts | hc
      · rw [if_pos hts]
      · by_cases hts : newerTimestamp o r
        · rw [if_pos hts]
        · rw [if_neg hts, if_neg hc]

/-- C1 (amended): `detect_changes` returns three record sets with pairwise
disjoint keys: added (key indexed in new, no old record carries it), removed
(key indexed in old, no new record carries it), and updated — keys present in
both where the new record has a strictly newer `updated_at` than the old one
*or where the canonical serialisations differ at all*: the content comparison
is the `elif` of the timestamp test, so it also fires when both records carry
timestamps that are equal or older, not only when timestamps are absent. -/
theorem c1_detect_changes_characterization (old_data new_data : List Record)
    (key_field : String) :
    (∀ r, r ∈ (detect_changes old_data new_data key_field).1
        ↔ ∃ k, alookup (buildIndex key_field new_data) k = some r
            ∧ ∀ o ∈ old_data, alookup o key_field ≠ some k)
    ∧ (∀ r, r ∈ (detect_changes old_data new_data key_field).2.1
        ↔ ∃ k o, alookup (buildIndex key_field old_data) k = some o
            ∧ alookup (buildIndex key_field new_data) k = some r
            ∧ (newerTimestamp o r = true ∨ canon o ≠ canon r))
    ∧ (∀ r, r ∈ (detect_changes old_data new_data key_field).2.2
        ↔ ∃ k, alookup (buildIndex key_field old_data) k = some r
            ∧ ∀ n ∈ new_data, alookup n key_field ≠ some k)
    ∧ (∀ r, ¬ (r ∈ (detect_changes old_data new_data key_field).1
          ∧ r ∈ (detect_changes old_data new_data key_field).2.1))
    ∧ (∀ r, ¬ (r ∈ (detect_changes old_data new_data key_field).1
          ∧ r ∈ (detect_changes old_data new_data key_field).2.2))
    ∧ (∀ r, ¬ (r ∈ (detect_changes old_data new_data key_field).2.1
          ∧ r ∈ (detect_changes old_data new_data key_field).2.2)) := by
  refine ⟨detect_changes_added_mem old_data new_data key_field,
    detect_changes_updated_mem old_data new_data key_field,
    detect_changes_removed_mem old_data new_data key_field, ?_, ?_, ?_⟩
  · rintro r ⟨ha, hu⟩
    obtain ⟨k, hknew, hold⟩ := (detect_changes_added_mem _ _ _ r).mp ha
    obtain ⟨k', o, hold', hnew', _⟩ := (detect_changes_updated_mem _ _ _ r).mp hu
    have hk : alookup r key_field = some k := (buildIndex_lookup_some _ _ _ _ hknew).2
    have hk' : alookup r key_field = some k' := (buildIndex_lookup_some _ _ _ _ hnew').2
    obtain rfl : k = k' := by rw [hk] at hk'; exact Option.some_injective _ hk'
    obtain ⟨homem, hokey⟩ := buildIndex_lookup_some _ _ _ _ hold'
    exact hold o homem hokey
  · rintro r ⟨ha, hr⟩
    obtain ⟨k, hknew, hold⟩ := (detect_changes_added_mem _ _ _ r).mp ha
    obtain ⟨k', hkold, hnew⟩ := (detect_changes_removed_mem _ _ _ r).mp hr
    have hk : alookup r key_field = some k := (buildIndex_lookup_some _ _ _ _ hknew).2
    have hk' : alookup r key_field = some k' := (buildIndex_lookup_some _ _ _ _ hkold).2
    obtain rfl : k = k' := by rw [hk] at hk'; exact Option.some_injective _ hk'
    obtain ⟨homem, hokey⟩ := buildIndex_lookup_some _ _ _ _ hkold
    exact hold r homem hokey
  · rintro r ⟨hu, hr⟩
    obtain ⟨k, o, hold', hnew', _⟩ := (detect_changes_updated_mem _ _ _ r).mp hu
    obtain ⟨k', hkold, hnew⟩ := (detect_changes_removed_mem _ _ _ r).mp hr
    have hk : alookup r key_field = some k := (buildIndex_lookup_some _ _ _ _ hnew').2
    have hk' : alookup r key_field = some k' := (buildIndex_lookup_some _ _ _ _ hkold).2
    obtain rfl : k = k' := by rw [hk] at hk'; exact Option.some_injective _ hk'
    obtain ⟨hnmem, hnkey⟩ := buildIndex_lookup_some _ _ _ _ hnew'
    exact hnew r hnmem hnkey

/-!
### `DataSynchronizer.merge_data` (sync.py lines 218-269)

The loop keeps two pieces of state: the result list `merged_data`
(initially a copy of `target_data`) and the mutable dict `target_index`.
Replacement happens through `merged_data.index(target_item)` followed by
assignment — i.e. the first element equal to `target_item` is overwritten
(`replaceFirst`; under the unique-key preconditions of the claim the element
is always present, so Python's `ValueError` branch of `.index` is
unreachable).
-/

/-- Replacement `l[l.index(old)] = new`: overwrite the first element equal to `old`
(unchanged when absent — unreachable under the proved preconditions). -/
def replaceFirst : List Record → Record → Record → List Record
  | [], _, _ => []
  | x :: xs, old, new => if x = old then new :: xs else x :: replaceFirst xs old new

/-- One iteration of the `for source_item in source_data` loop of
`merge_data`: skip items without the key field; for a key already indexed,
replace the indexed target item when the source's `updated_at` is strictly
newer, or (`elif`) when the target item has no `updated_at`; for a new key,
append. -/
def mergeStep (key_field : String) (st : List Record × List (String × Record))
    (source_item : Record) : List Record × List (String × Record) :=
  match alookup source_item key_field with
  | none => st
  | some k =>
    match alookup st.2 k with
    | some target_item =>
      if newerTimestamp target_item source_item then
        (replaceFirst st.1 target_item source_item, setEntry st.2 k source_item)
      else if (alookup target_item "updated_at").isNone then
        (replaceFirst st.1 target_item source_item, setEntry st.2 k source_item)
      else st
    | none => (st.1 ++ [source_item], setEntry st.2 k source_item)

/-- Source `DataSynchronizer.merge_data`: fold the loop body over the source items,
starting from a copy of the target list and its index. -/
def merge_data (source_data target_data : List Record) (key_field : String) :
    List Record :=
  (source_data.foldl (mergeStep key_field) (target_data, buildIndex key_field target_data)).1

/-- The condition under which `merge_data` prefers the source record: the
source's `updated_at` is strictly newer than the target's (both present), or
the target record lacks `updated_at`. -/
def chooseSource (source_item target_item : Record) : Bool :=
  newerTimestamp target_item source_item || (alookup target_item "updated_at").isNone

/-- The record a target item ends up as after the source items `p` have been
processed: the matching source record when one exists and is preferred,
otherwise the target item itself. -/
def pickFrom (key_field : String) (p : List Record) (t : Record) : Record :=
  match alookup t key_field with
  | none => t
  | some k =>
    match p.find? (fun s => decide (alookup s key_field = some k)) with
    | none => t
    | some s => if chooseSource s t then s else t

/-- Whether a source item gets appended: it carries the key field and its key
occurs in no target record. -/
def freshPred (key_field : String) (target_data : List Record) (s : Record) : Bool :=
  match alookup s key_field with
  | none => false
  | some k => decide (∀ t ∈ target_data, alookup t key_field ≠ some k)

/-- The source items appended because their key occurs in no target record. -/
def freshFrom (key_field : String) (target_data p : List Record) : List Record :=
  p.filter (freshPred key_field target_data)

/-- Modelled from the spec (§4.10 Merge): the union of source and target
keyed by the key field — every target record replaced by the source record
with the same key exactly when that source record's `updated_at` is strictly
newer or the target record lacks `updated_at`, followed by the source
records whose key occurs in no target record; source records without the key
field are skipped. -/
def mergeSpec (source_data target_data : List Record) (key_field : String) :
    List Record :=
  target_data.map (pickFrom key_field source_data)
    ++ freshFrom key_field target_data source_data

/-- The keys carried by the records of a list, in order. -/
def keysOf (key_field : String) (data : List Record) : List String :=
  data.filterMap (fun r => alookup r key_field)

theorem mem_keysOf (key_field : String) (data : List Record) (k : String) :
    k ∈ keysOf key_field data ↔ ∃ r ∈ data, alookup r key_field = some k := by
  simp [keysOf, List.mem_filterMap]

theorem find?_singleton_key (s : Record) (key_field k : String) :
    ([s].find? (fun x => decide (alookup x key_field = some k)))
      = if alookup s key_field = some k then some s else none := by
  by_cases h : alookup s key_field = some k <;> simp [List.find?, h]

theorem pickFrom_keyless (key_field : String) (p : List Record) (t : Record)
    (ht : alookup t key_field = none) : pickFrom key_field p t = t := by
  rw [pickFrom, ht]

theorem pickFrom_keyed (key_field : String) (p : List Record) (t : Record) (k : String)
    (ht : alookup t key_field = some k) :
    pickFrom key_field p t =
      match p.find? (fun s => decide (alookup s key_field = some k)) with
      | none => t
      | some s => if chooseSource s t then s else t := by
  rw [pickFrom, ht]

theorem pickFrom_append_of_ne (key_field : String) (q : List Record) (s t : Record)
    (k : String) (hs : alookup s key_field = some k)
    (ht : alookup t key_field ≠ some k) :
    pickFrom key_field (q ++ [s]) t = pickFrom key_field q t := by
  cases htk : alookup t key_field with
  | none => rw [pickFrom_keyless _ _ _ htk, pickFrom_keyless _ _ _ htk]
  | some k' =>
    have hne : k' ≠ k := fun h => ht (h ▸ htk)
    rw [pickFrom_keyed _ _ _ _ htk, pickFrom_keyed _ _ _ _ htk]
    rw [List.find?_append, find?_singleton_key]
    rw [if_neg (by rw [hs]; exact fun h => hne (Option.some_injective _ h).symm)]
    rw [Option.or_none]

theorem pickFrom_append_nokey (key_field : String) (q : List Record) (s t : Record)
    (hs : alookup s key_field = none) :
    pickFrom key_field (q ++ [s]) t = pickFrom key_field q t := by
  cases htk : alookup t key_field with
  | none => rw [pickFrom_keyless _ _ _ htk, pickFrom_keyless _ _ _ htk]
  | some k' =>
    rw [pickFrom_keyed _ _ _ _ htk, pickFrom_keyed _ _ _ _ htk]
    rw [List.find?_append, find?_singleton_key, if_neg (by rw [hs]; simp), Option.or_none]

theorem pickFrom_append_hit (key_field : String) (q : List Record) (s t : Record)
    (k : String) (hs : alookup s key_field = some k)
    (ht : alookup t key_field = some k)
    (hq : ∀ r ∈ q, alookup r key_field ≠ some k) :
    pickFrom key_field (q ++ [s]) t = if chooseSource s t then s else t := by
  have hfind : q.find? (fun x => decide (alookup x key_field = some k)) = none := by
    rw [List.find?_eq_none]
    intro r hr
    simpa using hq r hr
  rw [pickFrom_keyed _ _ _ _ ht, List.find?_append, hfind, find?_singleton_key, if_pos hs,
    Option.none_or]

theorem pickFrom_none_of_no_match (key_field : String) (q : List Record) (t : Record)
    (k : String) (ht : alookup t key_field = some k)
    (hq : ∀ r ∈ q, alookup r key_field ≠ some k) :
    pickFrom key_field q t = t := by
  have hfind : q.find? (fun x => decide (alookup x key_field = some k)) = none := by
    rw [List.find?_eq_none]
    intro r hr
    simpa using hq r hr
  rw [pickFrom_keyed _ _ _ _ ht, hfind]

theorem pickFrom_result (key_field : String) (q : List Record) (t : Record) :
    pickFrom key_field q t = t
    ∨ ∃ s ∈ q, pickFrom key_field q t = s
        ∧ alookup s key_field = alookup t key_field := by
  cases htk : alookup t key_field with
  | none => exact Or.inl (pickFrom_keyless _ _ _ htk)
  | some k =>
    rw [pickFrom_keyed _ _ _ _ htk]
    cases hfind : q.find? (fun x => decide (alookup x key_field = some k)) with
    | none => exact Or.inl rfl
    | some s =>
      by_cases hc : chooseSource s t
      · refine Or.inr ⟨s, List.mem_of_find?_eq_some hfind, ?_, ?_⟩
        · show (if chooseSource s t then s else t) = s
          rw [if_pos hc]
        · have hp := List.find?_some hfind
          simp only [decide_eq_true_eq] at hp
          rw [hp]
      · refine Or.inl ?_
        show (if chooseSource s t then s else t) = t
        rw [if_neg hc]

theorem replaceFirst_append_of_not_mem (A B : List Record) (t0 s : Record)
    (h : t0 ∉ A) : replaceFirst (A ++ B) t0 s = A ++ replaceFirst B t0 s := by
  induction A with
  | nil => rfl
  | cons x xs ih =>
    have hx : x ≠ t0 := fun hh => h (hh ▸ List.mem_cons_self x xs)
    rw [List.cons_append, replaceFirst, if_neg hx, ih (fun hh => h (List.mem_cons_of_mem x hh))]
    rfl

theorem replaceFirst_cons_self (B : List Record) (t0 s : Record) :
    replaceFirst (t0 :: B) t0 s = s :: B := by
  rw [replaceFirst, if_pos rfl]

theorem map_congr_mem {α β : Type} (l : List α) (f g : α → β)
    (h : ∀ a ∈ l, f a = g a) : l.map f = l.map g := by
  induction l with
  | nil => rfl
  | cons x xs ih =>
    rw [List.map_cons, List.map_cons, h x (by simp), ih (fun a ha => h a (by simp [ha]))]

theorem keysOf_append (key_field : String) (a b : List Record) :
    keysOf key_field (a ++ b) = keysOf key_field a ++ keysOf key_field b := by
  simp [keysOf]

theorem freshFrom_append (key_field : String) (target_data q : List Record) (s : Record) :
    freshFrom key_field target_data (q ++ [s])
      = freshFrom key_field target_data q
        ++ if freshPred key_field target_data s then [s] else [] := by
  rw [freshFrom, List.filter_append]
  congr 1
  by_cases h : freshPred key_field target_data s <;> simp [List.filter, h]

theorem freshPred_nokey (key_field : String) (target_data : List Record) (s : Record)
    (h : alookup s key_field = none) : freshPred key_field target_data s = false := by
  rw [freshPred, h]

theorem freshPred_keyed (key_field : String) (target_data : List Record) (s : Record)
    (k : String) (h : alookup s key_field = some k) :
    freshPred key_field target_data s
      = decide (∀ t ∈ target_data, alookup t key_field ≠ some k) := by
  rw [freshPred, h]

theorem pickFrom_nil (key_field : String) (t : Record) : pickFrom key_field [] t = t := by
  cases htk : alookup t key_field with
  | none => exact pickFrom_keyless _ _ _ htk
  | some k => rw [pickFrom_keyed _ _ _ _ htk]; rfl

theorem mergeStep_nokey (key_field : String) (st : List Record × List (String × Record))
    (s : Record) (h : alookup s key_field = none) : mergeStep key_field st s = st := by
  rw [mergeStep, h]

theorem mergeStep_keyed (key_field : String) (st : List Record × List (String × Record))
    (s : Record) (k : String) (hs : alookup s key_field = some k) :
    mergeStep key_field st s =
      match alookup st.2 k with
      | some target_item =>
        if newerTimestamp target_item s then
          (replaceFirst st.1 target_item s, setEntry st.2 k s)
        else if (alookup target_item "updated_at").isNone then
          (replaceFirst st.1 target_item s, setEntry st.2 k s)
        else st
      | none => (st.1 ++ [s], setEntry st.2 k s) := by
  rw [mergeStep, hs]

theorem mergeStep_hit (key_field : String) (st : List Record × List (String × Record))
    (s : Record) (k : String) (t0 : Record) (hs : alookup s key_field = some k)
    (hl : alookup st.2 k = some t0) :
    mergeStep key_field st s =
      if chooseSource s t0 then (replaceFirst st.1 t0 s, setEntry st.2 k s) else st := by
  rw [mergeStep_keyed key_field st s k hs, hl]
  show (if newerTimestamp t0 s then (replaceFirst st.1 t0 s, setEntry st.2 k s)
      else if (alookup t0 "updated_at").isNone then
        (replaceFirst st.1 t0 s, setEntry st.2 k s)
      else st) = _
  rw [chooseSource]
  by_cases h1 : newerTimestamp t0 s
  · rw [if_pos h1, if_pos (by simp [h1])]
  · rw [if_neg h1]
    by_cases h2 : (alookup t0 "updated_at").isNone
    · rw [if_pos h2, if_pos (by simp [h1, h2])]
    · rw [if_neg h2, if_neg (by simp [h1, h2])]

theorem mergeStep_miss (key_field : String) (st : List Record × List (String × Record))
    (s : Record) (k : String) (hs : alookup s key_field = some k)
    (hl : alookup st.2 k = none) :
    mergeStep key_field st s = (st.1 ++ [s], setEntry st.2 k s) := by
  rw [mergeStep_keyed key_field st s k hs, hl]

theorem split_by_key (key_field : String) (target_data : List Record)
    (ht : (keysOf key_field target_data).Nodup) (t0 : Record) (k : String)
    (hmem : t0 ∈ target_data) (hkey : alookup t0 key_field = some k) :
    ∃ T1 T2, target_data = T1 ++ t0 :: T2
      ∧ (∀ t ∈ T1, alookup t key_field ≠ some k)
      ∧ (∀ t ∈ T2, alookup t key_field ≠ some k) := by
  obtain ⟨T1, T2, rfl⟩ := List.append_of_mem hmem
  refine ⟨T1, T2, rfl, ?_, ?_⟩
  all_goals
    rw [keysOf_append] at ht
    have h1 : keysOf key_field (t0 :: T2) = k :: keysOf key_field T2 := by
      rw [keysOf, List.filterMap_cons, hkey]
      rfl
    rw [h1, List.nodup_append] at ht
  · intro t htmem htk
    exact ht.2.2 ((mem_keysOf _ _ _).mpr ⟨t, htmem, htk⟩) (List.mem_cons_self _ _)
  · intro t htmem htk
    exact (List.nodup_cons.mp ht.2.1).1 ((mem_keysOf _ _ _).mpr ⟨t, htmem, htk⟩)

/-- The index entry for key `k` after the source items `p` have been
processed: the (possibly replaced) indexed target item when the target
carries `k`, else the appended source item with key `k`, if any. -/
def idxSpec (key_field : String) (target_data p : List Record) (k : String) :
    Option Record :=
  match alookup (buildIndex key_field target_data) k with
  | some t => some (pickFrom key_field p t)
  | none => p.find? (fun s => decide (alookup s key_field = some k))

theorem idxSpec_target_hit (key_field : String) (target_data p : List Record)
    (k : String) (t : Record) (h : alookup (buildIndex key_field target_data) k = some t) :
    idxSpec key_field target_data p k = some (pickFrom key_field p t) := by
  rw [idxSpec, h]

theorem idxSpec_target_miss (key_field : String) (target_data p : List Record)
    (k : String) (h : alookup (buildIndex key_field target_data) k = none) :
    idxSpec key_field target_data p k
      = p.find? (fun s => decide (alookup s key_field = some k)) := by
  rw [idxSpec, h]

theorem idxSpec_append_ne (key_field : String) (target_data q : List Record) (s : Record)
    (k k' : String) (hsk : alookup s key_field = some k) (hne : k' ≠ k) :
    idxSpec key_field target_data (q ++ [s]) k'
      = idxSpec key_field target_data q k' := by
  cases h : alookup (buildIndex key_field target_data) k' with
  | some t =>
    rw [idxSpec_target_hit _ _ _ _ _ h, idxSpec_target_hit _ _ _ _ _ h]
    have htk' : alookup t key_field = some k' := (buildIndex_lookup_some _ _ _ _ h).2
    rw [pickFrom_append_of_ne key_field q s t k hsk
      (by rw [htk']; exact fun hh => hne (Option.some_injective _ hh))]
  | none =>
    rw [idxSpec_target_miss _ _ _ _ h, idxSpec_target_miss _ _ _ _ h,
      List.find?_append, find?_singleton_key,
      if_neg (by rw [hsk]; exact fun hh => hne (Option.some_injective _ hh).symm),
      Option.or_none]

/-- The loop invariant of `merge_data`: after processing the source prefix
`p` (whose keys are pairwise distinct, as are the target's), the result list
is the target with each item replaced by its preferred source record followed
by the appended source-only records, and the index reflects the same state. -/
theorem merge_fold_inv (key_field : String) (target_data : List Record)
    (ht : (keysOf key_field target_data).Nodup) :
    ∀ p : List Record, (keysOf key_field p).Nodup →
      (p.foldl (mergeStep key_field) (target_data, buildIndex key_field target_data)).1
          = target_data.map (pickFrom key_field p)
            ++ freshFrom key_field target_data p
      ∧ ∀ k, alookup (p.foldl (mergeStep key_field)
            (target_data, buildIndex key_field target_data)).2 k
          = idxSpec key_field target_data p k := by
  intro p
  induction p using List.reverseRecOn with
  | nil =>
    intro _
    refine ⟨?_, ?_⟩
    · rw [List.foldl_nil]
      show target_data = _
      rw [freshFrom, List.filter_nil, List.append_nil,
        map_congr_mem target_data (pickFrom key_field []) id (fun a _ => pickFrom_nil _ a),
        List.map_id]
    · intro k
      rw [List.foldl_nil]
      show alookup (buildIndex key_field target_data) k = _
      cases h : alookup (buildIndex key_field target_data) k with
      | some t => rw [idxSpec_target_hit _ _ _ _ _ h, pickFrom_nil]
      | none => rw [idxSpec_target_miss _ _ _ _ h, List.find?_nil]
  | append_singleton q s ihq =>
    intro hnd
    have hndq : (keysOf key_field q).Nodup := by
      rw [keysOf_append] at hnd
      exact (List.nodup_append.mp hnd).1
    obtain ⟨ih1, ih2⟩ := ihq hndq
    rw [List.foldl_append, List.foldl_cons, List.foldl_nil]
    set st := q.foldl (mergeStep key_field) (target_data, buildIndex key_field target_data)
      with hst
    cases hsk : alookup s key_field with
    | none =>
      rw [mergeStep_nokey key_field st s hsk]
      refine ⟨?_, ?_⟩
      · rw [ih1, freshFrom_append, freshPred_nokey _ _ _ hsk]
        simp only [Bool.false_eq_true, if_false, List.append_nil]
        rw [map_congr_mem target_data (pickFrom key_field (q ++ [s])) (pickFrom key_field q)
          (fun t _ => pickFrom_append_nokey key_field q s t hsk)]
      · intro k
        rw [ih2 k]
        cases h : alookup (buildIndex key_field target_data) k with
        | some t =>
          rw [idxSpec_target_hit _ _ _ _ _ h, idxSpec_target_hit _ _ _ _ _ h,
            pickFrom_append_nokey key_field q s t hsk]
        | none =>
          rw [idxSpec_target_miss _ _ _ _ h, idxSpec_target_miss _ _ _ _ h,
            List.find?_append, find?_singleton_key, if_neg (by rw [hsk]; simp),
            Option.or_none]
    | some k =>
      have hknotq : ∀ r ∈ q, alookup r key_field ≠ some k := by
        rw [keysOf_append] at hnd
        have hk1 : keysOf key_field [s] = [k] := by
          rw [keysOf, List.filterMap_cons, hsk]
          rfl
        rw [hk1, List.nodup_append] at hnd
        intro r hr hrk
        exact hnd.2.2 ((mem_keysOf _ _ _).mpr ⟨r, hr, hrk⟩) (List.mem_cons_self _ _)
      cases htk0 : alookup (buildIndex key_field target_data) k with
      | some t0 =>
        obtain ⟨ht0mem, ht0key⟩ := buildIndex_lookup_some key_field target_data k t0 htk0
        have hpickq : pickFrom key_field q t0 = t0 :=
          pickFrom_none_of_no_match key_field q t0 k ht0key hknotq
        have hlook : alookup st.2 k = some t0 := by
          rw [ih2 k, idxSpec_target_hit _ _ _ _ _ htk0, hpickq]
        rw [mergeStep_hit key_field st s k t0 hsk hlook]
        obtain ⟨T1, T2, htgt, hT1, hT2⟩ :=
          split_by_key key_field target_data ht t0 k ht0mem ht0key
        have hfresh : freshPred key_field target_data s = false := by
          rw [freshPred_keyed _ _ _ _ hsk]
          simp only [decide_eq_false_iff_not]
          intro hall
          exact hall t0 ht0mem ht0key
        have hfreshapp : freshFrom key_field target_data (q ++ [s])
            = freshFrom key_field target_data q := by
          rw [freshFrom_append, hfresh]
          simp
        have hmapT1 : T1.map (pickFrom key_field (q ++ [s]))
            = T1.map (pickFrom key_field q) :=
          map_congr_mem _ _ _ (fun t htm =>
            pickFrom_append_of_ne key_field q s t k hsk (hT1 t htm))
        have hmapT2 : T2.map (pickFrom key_field (q ++ [s]))
            = T2.map (pickFrom key_field q) :=
          map_congr_mem _ _ _ (fun t htm =>
            pickFrom_append_of_ne key_field q s t k hsk (hT2 t htm))
        have hpickapp : pickFrom key_field (q ++ [s]) t0
            = if chooseSource s t0 then s else t0 :=
          pickFrom_append_hit key_field q s t0 k hsk ht0key hknotq
        have ht0T1 : t0 ∉ T1.map (pickFrom key_field q) := by
          intro hmm
          obtain ⟨t, htm, hteq⟩ := List.mem_map.mp hmm
          rcases pickFrom_result key_field q t with hcase | ⟨s', hs'q, hs'eq, hs'key⟩
          · have htt0 : t = t0 := by rw [← hcase, hteq]
            exact hT1 t htm (htt0 ▸ ht0key)
          · have hs't0 : s' = t0 := by rw [← hs'eq, hteq]
            rw [hs't0, ht0key] at hs'key
            exact hT1 t htm hs'key.symm
        have hmap_split : target_data.map (pickFrom key_field q)
            = T1.map (pickFrom key_field q) ++ t0 :: T2.map (pickFrom key_field q) := by
          rw [htgt, List.map_append, List.map_cons, hpickq]
        by_cases hcs : chooseSource s t0
        · rw [if_pos hcs]
          have hmap_split2 : target_data.map (pickFrom key_field (q ++ [s]))
              = T1.map (pickFrom key_field q) ++ s :: T2.map (pickFrom key_field q) := by
            rw [htgt, List.map_append, List.map_cons, hmapT1, hmapT2, hpickapp, if_pos hcs]
          refine ⟨?_, ?_⟩
          · rw [ih1, hmap_split, hfreshapp, List.append_assoc, List.cons_append,
              replaceFirst_append_of_not_mem _ _ _ _ ht0T1, replaceFirst_cons_self,
              hmap_split2, List.append_assoc, List.cons_append]
          · intro k'
            by_cases hk' : k' = k
            · subst hk'
              rw [alookup_setEntry_self, idxSpec_target_hit _ _ _ _ _ htk0, hpickapp,
                if_pos hcs]
            · rw [alookup_setEntry_ne _ _ _ _ (fun h => hk' h.symm), ih2 k',
                idxSpec_append_ne key_field target_data q s k k' hsk hk']
        · rw [if_neg hcs]
          have hpick_all : ∀ t ∈ target_data,
              pickFrom key_field (q ++ [s]) t = pickFrom key_field q t := by
            intro t htm
            rw [htgt] at htm
            rcases List.mem_append.mp htm with h1 | h2
            · exact pickFrom_append_of_ne key_field q s t k hsk (hT1 t h1)
            · rcases List.mem_cons.mp h2 with rfl | h3
              · rw [hpickapp, if_neg hcs, hpickq]
              · exact pickFrom_append_of_ne key_field q s t k hsk (hT2 t h3)
          refine ⟨?_, ?_⟩
          · rw [ih1, hfreshapp,
              map_congr_mem target_data (pickFrom key_field (q ++ [s]))
                (pickFrom key_field q) hpick_all]
          · intro k'
            by_cases hk' : k' = k
            · subst hk'
              rw [ih2 k', idxSpec_target_hit _ _ _ _ _ htk0,
                idxSpec_target_hit _ _ _ _ _ htk0, hpickq, hpickapp, if_neg hcs]
            · rw [ih2 k', idxSpec_append_ne key_field target_data q s k k' hsk hk']
      | none =>
        have htgt_none : ∀ t ∈ target_data, alookup t key_field ≠ some k :=
          (buildIndex_lookup_eq_none key_field target_data k).mp htk0
        have hqfind : q.find? (fun x => decide (alookup x key_field = some k)) = none := by
          rw [List.find?_eq_none]
          intro r hr
          simpa using hknotq r hr
        have hlook : alookup st.2 k = none := by
          rw [ih2 k, idxSpec_target_miss _ _ _ _ htk0, hqfind]
        rw [mergeStep_miss key_field st s k hsk hlook]
        refine ⟨?_, ?_⟩
        · rw [ih1,
            map_congr_mem target_data (pickFrom key_field (q ++ [s]))
              (pickFrom key_field q)
              (fun t htm => pickFrom_append_of_ne key_field q s t k hsk (htgt_none t htm)),
            freshFrom_append, freshPred_keyed _ _ _ _ hsk]
          have hp : decide (∀ t ∈ target_data, alookup t key_field ≠ some k) = true := by
            simpa using htgt_none
          rw [hp]
          simp [List.append_assoc]
        · intro k'
          by_cases hk' : k' = k
          · subst hk'
            rw [alookup_setEntry_self, idxSpec_target_miss _ _ _ _ htk0,
              List.find?_append, find?_singleton_key, if_pos hsk, hqfind, Option.none_or]
          · rw [alookup_setEntry_ne _ _ _ _ (fun h => hk' h.symm), ih2 k',
              idxSpec_append_ne key_field target_data q s k k' hsk hk']

/-- C9: for well-keyed inputs (pairwise-distinct keys among the source and
target records that carry the key field, as the claim's "union keyed by that
field" presupposes), `merge_data` returns exactly the union described by the
spec: every target record replaced by the source record with the same key
exactly when that source's `updated_at` is strictly newer than the target's
or the target lacks `updated_at`; source records missing the key field are
skipped; source records whose key is absent from the target are appended. -/
theorem c9_merge_data_spec (source_data target_data : List Record) (key_field : String)
    (hs : (keysOf key_field source_data).Nodup)
    (ht : (keysOf key_field target_data).Nodup) :
    merge_data source_data target_data key_field
      = mergeSpec source_data target_data key_field := by
  rw [merge_data, mergeSpec]
  exact (merge_fold_inv key_field target_data ht source_data hs).1

/-- Witness for C9 at concrete data: a newer source record replaces its
target, a source record replaces a timestamp-less target, a new-keyed source
record is appended, and a keyless source record is skipped. -/
theorem c9_merge_data_spec_witness :
    merge_data
        [[("id", "1"), ("updated_at", "t2")], [("id", "3"), ("updated_at", "t1")],
         [("x", "y")], [("id", "2"), ("updated_at", "t0")]]
        [[("id", "1"), ("updated_at", "t1")], [("id", "2")]] "id"
      = mergeSpec
          [[("id", "1"), ("updated_at", "t2")], [("id", "3"), ("updated_at", "t1")],
           [("x", "y")], [("id", "2"), ("updated_at", "t0")]]
          [[("id", "1"), ("updated_at", "t1")], [("id", "2")]] "id" :=
  c9_merge_data_spec
    [[("id", "1"), ("updated_at", "t2")], [("id", "3"), ("updated_at", "t1")],
     [("x", "y")], [("id", "2"), ("updated_at", "t0")]]
    [[("id", "1"), ("updated_at", "t1")], [("id", "2")]] "id"
    (by decide) (by decide)

end MLBPitcher
